import Mathlib

/-!
Verification of the letta-project memory/record store against its
natural-language specification.

The development shallowly embeds the record store of
`src/letta_server/app.py` (`LettaMemoryManager`), the categorizer of
`src/scripts/analyze_letta_memory_categories.py` (`LettaMemoryCategorizer`),
the metadata filter of `src/scripts/windsurf_memory_demo.py`
(`WindsurfMemorySystem`), and the SQLite-backed conversation listing of
`src/letta_server_manager.py` (`ConversationDatabase`).

Modelling conventions:
- JSON values are the inductive `Json` below; Python dicts are association
  lists whose lookup takes the first matching key (keys are unique in all
  documents the programs write).
- The store directory is a list of `DirEntry` (filename together with the
  parse outcome of the file's bytes); `none` stands for a file whose content
  is not valid JSON, so `json.load` raises on it.  Byte-level JSON
  serialization/parsing is abstracted as the identity on parsed documents.
- `os.listdir` order is the list order of the directory model; theorems that
  depend on order are stated for every order by quantifying over the list.
- `uuid.uuid4()` and `datetime.now().isoformat()` are nondeterministic, so
  the generated id and timestamp are explicit parameters of `store_memory`.
- Python string `lower`/`isalnum` are modelled by `Char.toLower` /
  `Char.isAlphanum`, faithful on the ASCII range.
-/

/-- JSON values, as produced by Python's `json.load`.  Numbers are modelled
as integers (no claim depends on floats); objects are association lists in
insertion order. -/
inductive Json where
  | null : Json
  | bool : Bool → Json
  | num : Int → Json
  | str : String → Json
  | arr : List Json → Json
  | obj : List (String × Json) → Json
deriving Repr

mutual

/-- Structural equality of JSON values (Python `==` on parsed documents). -/
def Json.beq : Json → Json → Bool
  | Json.null, Json.null => true
  | Json.bool a, Json.bool b => a == b
  | Json.num a, Json.num b => a == b
  | Json.str a, Json.str b => a == b
  | Json.arr a, Json.arr b => Json.beqList a b
  | Json.obj a, Json.obj b => Json.beqObj a b
  | _, _ => false

/-- Elementwise equality of JSON arrays. -/
def Json.beqList : List Json → List Json → Bool
  | [], [] => true
  | x :: xs, y :: ys => Json.beq x y && Json.beqList xs ys
  | _, _ => false

/-- Fieldwise equality of JSON objects. -/
def Json.beqObj : List (String × Json) → List (String × Json) → Bool
  | [], [] => true
  | (k1, v1) :: xs, (k2, v2) :: ys => k1 == k2 && Json.beq v1 v2 && Json.beqObj xs ys
  | _, _ => false

end

mutual

theorem Json.beq_iff : ∀ (a b : Json), Json.beq a b = true ↔ a = b
  | Json.null, Json.null => by simp [Json.beq]
  | Json.bool a, Json.bool b => by simp [Json.beq]
  | Json.num a, Json.num b => by simp [Json.beq]
  | Json.str a, Json.str b => by simp [Json.beq]
  | Json.arr a, Json.arr b => by
      simp only [Json.beq]
      rw [Json.beqList_iff a b]
      constructor
      · intro h; rw [h]
      · intro h; injection h
  | Json.obj a, Json.obj b => by
      simp only [Json.beq]
      rw [Json.beqObj_iff a b]
      constructor
      · intro h; rw [h]
      · intro h; injection h
  | Json.null, Json.bool _ => by simp [Json.beq]
  | Json.null, Json.num _ => by simp [Json.beq]
  | Json.null, Json.str _ => by simp [Json.beq]
  | Json.null, Json.arr _ => by simp [Json.beq]
  | Json.null, Json.obj _ => by simp [Json.beq]
  | Json.bool _, Json.null => by simp [Json.beq]
  | Json.bool _, Json.num _ => by simp [Json.beq]
  | Json.bool _, Json.str _ => by simp [Json.beq]
  | Json.bool _, Json.arr _ => by simp [Json.beq]
  | Json.bool _, Json.obj _ => by simp [Json.beq]
  | Json.num _, Json.null => by simp [Json.beq]
  | Json.num _, Json.bool _ => by simp [Json.beq]
  | Json.num _, Json.str _ => by simp [Json.beq]
  | Json.num _, Json.arr _ => by simp [Json.beq]
  | Json.num _, Json.obj _ => by simp [Json.beq]
  | Json.str _, Json.null => by simp [Json.beq]
  | Json.str _, Json.bool _ => by simp [Json.beq]
  | Json.str _, Json.num _ => by simp [Json.beq]
  | Json.str _, Json.arr _ => by simp [Json.beq]
  | Json.str _, Json.obj _ => by simp [Json.beq]
  | Json.arr _, Json.null => by simp [Json.beq]
  | Json.arr _, Json.bool _ => by simp [Json.beq]
  | Json.arr _, Json.num _ => by simp [Json.beq]
  | Json.arr _, Json.str _ => by simp [Json.beq]
  | Json.arr _, Json.obj _ => by simp [Json.beq]
  | Json.obj _, Json.null => by simp [Json.beq]
  | Json.obj _, Json.bool _ => by simp [Json.beq]
  | Json.obj _, Json.num _ => by simp [Json.beq]
  | Json.obj _, Json.str _ => by simp [Json.beq]
  | Json.obj _, Json.arr _ => by simp [Json.beq]

theorem Json.beqList_iff : ∀ (a b : List Json), Json.beqList a b = true ↔ a = b
  | [], [] => by simp [Json.beqList]
  | [], _ :: _ => by simp [Json.beqList]
  | _ :: _, [] => by simp [Json.beqList]
  | x :: xs, y :: ys => by
      simp only [Json.beqList, Bool.and_eq_true]
      rw [Json.beq_iff x y, Json.beqList_iff xs ys]
      constructor
      · rintro ⟨h1, h2⟩; rw [h1, h2]
      · intro h; injection h with h1 h2; exact ⟨h1, h2⟩

theorem Json.beqObj_iff : ∀ (a b : List (String × Json)), Json.beqObj a b = true ↔ a = b
  | [], [] => by simp [Json.beqObj]
  | [], _ :: _ => by simp [Json.beqObj]
  | _ :: _, [] => by simp [Json.beqObj]
  | (k1, v1) :: xs, (k2, v2) :: ys => by
      simp only [Json.beqObj, Bool.and_eq_true, beq_iff_eq]
      rw [Json.beq_iff v1 v2, Json.beqObj_iff xs ys]
      constructor
      · rintro ⟨⟨h1, h2⟩, h3⟩; rw [h1, h2, h3]
      · intro h
        injection h with h1 h2
        injection h1 with h3 h4
        exact ⟨⟨h3, h4⟩, h2⟩

end

instance : DecidableEq Json := fun a b =>
  decidable_of_iff (Json.beq a b = true) (Json.beq_iff a b)

/-- A parsed JSON document (a Python dict as loaded by `json.load`): an
association list of fields in insertion order. -/
abbrev Doc := List (String × Json)

namespace Doc

/-- Python `d[k]` / `k in d` lookup: the value of the first field named `k`. -/
def get (d : Doc) (k : String) : Option Json :=
  match d.find? (fun kv => kv.1 == k) with
  | some kv => some kv.2
  | none => none

/-- Python `d.get(k, dflt)`. -/
def getD (d : Doc) (k : String) (dflt : Json) : Json :=
  match Doc.get d k with
  | some v => v
  | none => dflt

/-- Python `k in d` (dict key membership). -/
def has (d : Doc) (k : String) : Bool :=
  match Doc.get d k with
  | some _ => true
  | none => false

end Doc

/-- Python `needle in hay` on strings: substring containment (the empty
string is contained in every string). -/
def substrIn (needle hay : String) : Bool :=
  decide (needle.data <:+: hay.data)

/-- Python `str.lower()`, modelled on the ASCII range by `Char.toLower`. -/
def lowerStr (s : String) : String :=
  String.mk (s.data.map Char.toLower)

/-- Lexicographic `≤` on code-point lists: exactly Python's string
comparison, spelled out so that it evaluates by kernel reduction. -/
def dataLe : List Char → List Char → Bool
  | [], _ => true
  | _ :: _, [] => false
  | a :: as, b :: bs =>
    if a.toNat < b.toNat then true
    else if b.toNat < a.toNat then false
    else dataLe as bs

/-- Python `s <= t` on strings: lexicographic comparison by code point. -/
def strLe (s t : String) : Bool :=
  dataLe s.data t.data

/-- Python `s.endswith(suffix)`. -/
def strEndsWith (s suffix : String) : Bool :=
  decide (suffix.data <:+ s.data)

theorem dataLe_total : ∀ as bs : List Char, dataLe as bs = true ∨ dataLe bs as = true
  | [], _ => Or.inl rfl
  | _ :: _, [] => Or.inr rfl
  | a :: as, b :: bs => by
      rcases Nat.lt_trichotomy a.toNat b.toNat with h | h | h
      · left; simp [dataLe, h]
      · have h2 : ¬ a.toNat < b.toNat := by omega
        have h3 : ¬ b.toNat < a.toNat := by omega
        rcases dataLe_total as bs with ih | ih
        · left; simp [dataLe, h2, h3, ih]
        · right; simp [dataLe, h2, h3, ih]
      · right; simp [dataLe, h]

theorem dataLe_trans : ∀ as bs cs : List Char,
    dataLe as bs = true → dataLe bs cs = true → dataLe as cs = true
  | [], _, _, _, _ => rfl
  | _ :: _, [], _, h1, _ => by simp [dataLe] at h1
  | _ :: _, _ :: _, [], _, h2 => by simp [dataLe] at h2
  | a :: as, b :: bs, c :: cs, h1, h2 => by
      by_cases hab : a.toNat < b.toNat
      · by_cases hbc : b.toNat < c.toNat
        · have : a.toNat < c.toNat := Nat.lt_trans hab hbc
          simp [dataLe, this]
        · by_cases hcb : c.toNat < b.toNat
          · simp [dataLe, hbc, hcb] at h2
          · have hbceq : b.toNat = c.toNat := by omega
            have : a.toNat < c.toNat := hbceq ▸ hab
            simp [dataLe, this]
      · by_cases hba : b.toNat < a.toNat
        · simp [dataLe, hab, hba] at h1
        · have habeq : a.toNat = b.toNat := by omega
          by_cases hbc : b.toNat < c.toNat
          · have : a.toNat < c.toNat := habeq ▸ hbc
            simp [dataLe, this]
          · by_cases hcb : c.toNat < b.toNat
            · simp [dataLe, hbc, hcb] at h2
            · have hac : ¬ a.toNat < c.toNat := by omega
              have hca : ¬ c.toNat < a.toNat := by omega
              simp only [dataLe, if_neg hab, if_neg hba] at h1
              simp only [dataLe, if_neg hbc, if_neg hcb] at h2
              simp only [dataLe, if_neg hac, if_neg hca]
              exact dataLe_trans as bs cs h1 h2

theorem strLe_total (s t : String) : strLe s t = true ∨ strLe t s = true :=
  dataLe_total s.data t.data

theorem strLe_trans (s t u : String) :
    strLe s t = true → strLe t u = true → strLe s u = true :=
  dataLe_trans s.data t.data u.data

theorem strLe_of_not_strLe {s t : String} (h : ¬ strLe s t = true) : strLe t s = true := by
  rcases strLe_total s t with h2 | h2
  · exact absurd h2 h
  · exact h2

/-- Truthiness of a Python optional-string argument: `None` and the empty
string are falsy, every other string is truthy. -/
def truthy : Option String → Bool
  | none => false
  | some s => !(s == "")

/-- Python `a or b` on an optional string `a` and a string default `b`
(`topic or 'Untitled Memory'`): the default is taken when `a` is `None`
or empty. -/
def pyOr (a : Option String) (b : String) : String :=
  match a with
  | none => b
  | some s => if s == "" then b else s

/-- Stable insertion of `x` into a list kept sorted by `key` in descending
order: `x` is placed before the first element whose key is `≤ key x`. -/
def insertByDesc (key : α → String) (x : α) : List α → List α
  | [] => [x]
  | y :: ys => if strLe (key y) (key x) then x :: y :: ys else y :: insertByDesc key x ys

/-- Python `list.sort(key=..., reverse=True)`: a stable sort placing larger
keys first (equal keys keep their original relative order, which is what
Python's stable sort does). -/
def sortByDesc (key : α → String) (l : List α) : List α :=
  l.foldr (insertByDesc key) []

theorem mem_insertByDesc (key : α → String) (x a : α) :
    ∀ l : List α, a ∈ insertByDesc key x l ↔ a = x ∨ a ∈ l
  | [] => by simp [insertByDesc]
  | y :: ys => by
      by_cases h : strLe (key y) (key x) = true
      · simp [insertByDesc, h]
      · simp only [insertByDesc, if_neg h, List.mem_cons, mem_insertByDesc key x a ys]
        tauto

theorem mem_sortByDesc (key : α → String) (a : α) :
    ∀ l : List α, a ∈ sortByDesc key l ↔ a ∈ l
  | [] => by simp [sortByDesc]
  | y :: ys => by
      simp only [sortByDesc, List.foldr_cons, List.mem_cons]
      rw [mem_insertByDesc]
      have ih := mem_sortByDesc key a ys
      simp only [sortByDesc] at ih
      rw [ih]

theorem pairwise_insertByDesc (key : α → String) (x : α) :
    ∀ l : List α, l.Pairwise (fun a b => strLe (key b) (key a) = true) →
      (insertByDesc key x l).Pairwise (fun a b => strLe (key b) (key a) = true)
  | [], _ => by simp [insertByDesc]
  | y :: ys, h => by
      rcases List.pairwise_cons.mp h with ⟨hy, hys⟩
      by_cases hxy : strLe (key y) (key x) = true
      · rw [insertByDesc, if_pos hxy]
        refine List.pairwise_cons.mpr ⟨?_, h⟩
        intro b hb
        rcases List.mem_cons.mp hb with hb | hb
        · exact hb ▸ hxy
        · exact strLe_trans _ _ _ (hy b hb) hxy
      · rw [insertByDesc, if_neg hxy]
        refine List.pairwise_cons.mpr ⟨?_, pairwise_insertByDesc key x ys hys⟩
        intro b hb
        rcases (mem_insertByDesc key x b ys).mp hb with hb | hb
        · exact hb ▸ strLe_of_not_strLe hxy
        · exact hy b hb

theorem pairwise_sortByDesc (key : α → String) :
    ∀ l : List α, (sortByDesc key l).Pairwise (fun a b => strLe (key b) (key a) = true)
  | [] => by simp [sortByDesc]
  | y :: ys => by
      have ih := pairwise_sortByDesc key ys
      simp only [sortByDesc, List.foldr_cons]
      exact pairwise_insertByDesc key y _ ih

theorem length_insertByDesc (key : α → String) (x : α) :
    ∀ l : List α, (insertByDesc key x l).length = l.length + 1
  | [] => rfl
  | y :: ys => by
      by_cases h : strLe (key y) (key x) = true
      · simp [insertByDesc, h]
      · simp [insertByDesc, h, length_insertByDesc key x ys]

theorem length_sortByDesc (key : α → String) :
    ∀ l : List α, (sortByDesc key l).length = l.length
  | [] => rfl
  | y :: ys => by
      have ih := length_sortByDesc key ys
      simp only [sortByDesc, List.foldr_cons]
      rw [length_insertByDesc]
      simp only [sortByDesc] at ih
      rw [ih, List.length_cons]

/-- One file of the store directory (`~/.letta/memories`): its name and the
outcome of parsing its bytes with `json.load` — `none` when the file is not
valid JSON (so `json.load` raises on it). -/
structure DirEntry where
  name : String
  data : Option Doc
deriving Repr, DecidableEq

/-- `LettaMemoryManager.store_memory`, topic sanitization (app.py line 60):
`''.join(c if c.isalnum() or c in [' ', '_'] else '_' for c in topic).lower()`
— keep alphanumeric, space and underscore, replace every other character by
an underscore, then lower-case the joined string. -/
def sanitizeTopic (t : String) : String :=
  lowerStr (String.mk (t.data.map fun c =>
    if c.isAlphanum || c == ' ' || c == '_' then c else '_'))

/-- The JSON document `LettaMemoryManager.store_memory` writes (app.py lines
50-57), given the generated `memory_id` and `datetime.now().isoformat()`
timestamp.  `topic or 'Untitled Memory'` and `tags or []` are the Python
falsy-defaulting expressions. -/
def memoryEntry (content : Json) (topic : Option String) (tags : Option (List String))
    (memoryId timestamp : String) : Doc :=
  [("id", Json.str memoryId),
   ("entry_type", Json.str "user_memory"),
   ("topic", Json.str (pyOr topic "Untitled Memory")),
   ("timestamp", Json.str timestamp),
   ("content", content),
   ("tags", Json.arr ((tags.getD []).map Json.str))]

/-- The filename `store_memory` writes to (app.py line 61):
`f"{safe_topic}_{memory_id}.json"` where `safe_topic` sanitizes the
already-defaulted topic field. -/
def storeFilename (topic : Option String) (memoryId : String) : String :=
  sanitizeTopic (pyOr topic "Untitled Memory") ++ "_" ++ memoryId ++ ".json"

/-- `LettaMemoryManager.store_memory` (app.py lines 33-73): writes the entry
as a new file in the directory and returns the generated id. -/
def storeMemory (store : List DirEntry) (content : Json) (topic : Option String)
    (tags : Option (List String)) (memoryId timestamp : String) :
    List DirEntry × String :=
  (store ++ [⟨storeFilename topic memoryId,
             some (memoryEntry content topic tags memoryId timestamp)⟩],
   memoryId)

/-- How `retrieve_memory` can fail: `FileNotFoundError` when no filename
contains the id (app.py line 90), or the re-raised `json.load` error when
the first matching file is malformed (app.py lines 87-94). -/
inductive RetrieveError where
  | notFound : RetrieveError
  | readError : RetrieveError
deriving Repr, DecidableEq

/-- `LettaMemoryManager.retrieve_memory` (app.py lines 75-94): scans the
directory listing and returns the parsed content of the first file whose
NAME contains `memory_id` as a substring (`if memory_id in filename`). -/
def retrieveMemory (memoryId : String) : List DirEntry → Except RetrieveError Doc
  | [] => Except.error RetrieveError.notFound
  | e :: es =>
    if substrIn memoryId e.name then
      match e.data with
      | some d => Except.ok d
      | none => Except.error RetrieveError.readError
    else retrieveMemory memoryId es

/-- Python `t in v` where `v` is an arbitrary JSON value (app.py line 115,
`tag in memory.get('tags', [])`): equality membership for a list, substring
for a string, key membership for a dict.  On a non-container Python raises
`TypeError`; that case is modelled as no match (no record this program
writes has a non-container `tags` field, and the theorems below restrict
`tags` to arrays). -/
def pyInJson (t : String) : Json → Bool
  | Json.arr xs => xs.contains (Json.str t)
  | Json.str s => substrIn t s
  | Json.obj fs => fs.any (fun kv => kv.1 == t)
  | _ => false

/-- The string content of a JSON value; non-strings map to `""` (Python
would raise `AttributeError`/`TypeError` on them in the call sites modelled
here, which only ever see strings in the documents this program writes). -/
def pyStrVal : Json → String
  | Json.str s => s
  | _ => ""

/-- Tag half of the `list_memories` filter (app.py line 115):
`not tag or tag in memory.get('tags', [])`. -/
def tagMatch : Option String → Doc → Bool
  | none, _ => true
  | some t, d => if t == "" then true else pyInJson t (Doc.getD d "tags" (Json.arr []))

/-- Topic half of the `list_memories` filter (app.py line 116):
`not topic or topic.lower() in memory.get('topic', '').lower()`. -/
def topicMatch : Option String → Doc → Bool
  | none, _ => true
  | some t, d =>
    if t == "" then true
    else substrIn (lowerStr t) (lowerStr (pyStrVal (Doc.getD d "topic" (Json.str ""))))

/-- The conjunction of both filters (app.py lines 115-116). -/
def memoryFilter (tag topic : Option String) (d : Doc) : Bool :=
  tagMatch tag d && topicMatch topic d

/-- Failure of `list_memories`: the first malformed `.json` file makes
`json.load` raise; the `except` clause logs the error and re-raises it
(app.py lines 123-125). -/
inductive ListError where
  | parseFailure : String → ListError
deriving Repr, DecidableEq

/-- The scan loop of `LettaMemoryManager.list_memories` (app.py lines
108-117): for each `.json` file in listing order, parse it (aborting the
whole call on the first malformed file) and keep it when both filters
match. -/
def collectMemories (tag topic : Option String) : List DirEntry → Except ListError (List Doc)
  | [] => Except.ok []
  | e :: es =>
    if strEndsWith e.name ".json" then
      match e.data with
      | none => Except.error (ListError.parseFailure e.name)
      | some d =>
        match collectMemories tag topic es with
        | Except.error m => Except.error m
        | Except.ok rest =>
          Except.ok (if memoryFilter tag topic d then d :: rest else rest)
    else collectMemories tag topic es

/-- The sort key of `list_memories` (app.py line 120):
`x.get('timestamp', '')` — a record without a timestamp field sorts as the
empty string. -/
def tsOf (d : Doc) : String :=
  pyStrVal (Doc.getD d "timestamp" (Json.str ""))

/-- `LettaMemoryManager.list_memories` (app.py lines 96-125): scan, filter,
then `memories.sort(key=lambda x: x.get('timestamp', ''), reverse=True)`. -/
def listMemories (tag topic : Option String) (store : List DirEntry) :
    Except ListError (List Doc) :=
  match collectMemories tag topic store with
  | Except.error m => Except.error m
  | Except.ok ms => Except.ok (sortByDesc tsOf ms)

/-- `LettaMemoryCategorizer._load_memories` (analyze_letta_memory_categories
lines 17-32): load every `.json` file, but a file whose parse raises is
skipped with a printed warning (`except` around the single file read). -/
def loadMemories : List DirEntry → List Doc
  | [] => []
  | e :: es =>
    if strEndsWith e.name ".json" then
      match e.data with
      | some d => d :: loadMemories es
      | none => loadMemories es
    else loadMemories es

/-- The key-probing pattern of the categorizer:
`next((memory.get(key, dflt) for key in keys if key in memory), dflt)` —
the value of the first present key, else the fallback. -/
def firstKeyVal (d : Doc) (keys : List String) (dflt : Json) : Json :=
  match keys.find? (fun k => Doc.has d k) with
  | some k => Doc.getD d k dflt
  | none => dflt

/-- One step of the counting dicts of the categorizer
(`counts[v] = counts.get(v, 0) + 1`): increment an existing key or append a
new one with count 1 (dict insertion order). -/
def bump : List (Json × Nat) → Json → List (Json × Nat)
  | [], k => [(k, 1)]
  | (k0, n) :: rest, k => if k0 == k then (k0, n + 1) :: rest else (k0, n) :: bump rest k

/-- The frequency table a categorizer dimension builds: one `bump` per
loaded memory on the value the dimension extracts. -/
def tally (f : Doc → Json) (memories : List Doc) : List (Json × Nat) :=
  memories.foldl (fun acc m => bump acc (f m)) []

/-- `_analyze_entry_types` key probe (lines 69-70). -/
def entryTypeOf (d : Doc) : Json :=
  firstKeyVal d ["entry_type", "entryType", "type"] (Json.str "Unknown")

/-- `LettaMemoryCategorizer._analyze_entry_types` (lines 60-74). -/
def analyzeEntryTypes (memories : List Doc) : List (Json × Nat) :=
  tally entryTypeOf memories

/-- `_analyze_topics` key probe (lines 85-86). -/
def topicKeyOf (d : Doc) : Json :=
  firstKeyVal d ["topic", "title", "subject"] (Json.str "Unknown")

/-- `LettaMemoryCategorizer._analyze_topics` (lines 76-90). -/
def analyzeTopics (memories : List Doc) : List (Json × Nat) :=
  tally topicKeyOf memories

/-- `_analyze_domains` key probe (lines 125-126). -/
def domainOf (d : Doc) : Json :=
  firstKeyVal d ["domain", "category", "field"] (Json.str "Unknown")

/-- `LettaMemoryCategorizer._analyze_domains` (lines 116-130). -/
def analyzeDomains (memories : List Doc) : List (Json × Nat) :=
  tally domainOf memories

/-- Python `list.extend(v)` iteration over a JSON value: the elements of a
list, the characters of a string, the keys of a dict (a non-iterable raises
`TypeError`; records written by this repository always carry a list). -/
def jsonElems : Json → List Json
  | Json.arr xs => xs
  | Json.str s => s.data.map (fun c => Json.str (String.mk [c]))
  | Json.obj fs => fs.map (fun kv => Json.str kv.1)
  | _ => []

/-- `_analyze_tags` key probe (lines 101-102), default `[]`. -/
def tagsValOf (d : Doc) : Json :=
  firstKeyVal d ["tags", "categories", "labels"] (Json.arr [])

/-- The flattened `all_tags` list of `_analyze_tags` (lines 98-104): every
memory's tag sequence is extended onto one list before counting. -/
def allTags (memories : List Doc) : List Json :=
  memories.foldl (fun acc m => acc ++ jsonElems (tagsValOf m)) []

/-- The `tag_counts` dict of `LettaMemoryCategorizer._analyze_tags` (lines
106-109); the subsequent frequency sort and string formatting do not change
the counts and are not modelled. -/
def analyzeTags (memories : List Doc) : List (Json × Nat) :=
  (allTags memories).foldl bump []

/-- Sum of the frequency counts of one categorization dimension. -/
def sumCounts (counts : List (Json × Nat)) : Nat :=
  (counts.map (fun kv => kv.2)).sum

/-- A memory of `WindsurfMemorySystem` (windsurf_memory_demo lines 49-55):
every document it writes has `id`, `type`, `timestamp`, `content` and
`metadata` fields, accessed with plain subscripts.  The `type` field is
named `mtype` because `type` is reserved in Lean. -/
structure WMemory where
  id : String
  mtype : String
  timestamp : String
  content : Json
  metadata : Doc
deriving Repr, DecidableEq

/-- Python `d.get(k)` on a metadata dict: the stored value, or `None` when
the key is missing — the two are indistinguishable to the caller. -/
def pyDictGet (d : Doc) (k : String) : Json :=
  Doc.getD d k Json.null

/-- One conjunct of the windsurf metadata filter (lines 188-191):
`memory['metadata'].get(k) == v`. -/
def metadataPairMatch (m : WMemory) (kv : String × Json) : Bool :=
  pyDictGet m.metadata kv.1 == kv.2

/-- The windsurf metadata filter (lines 187-191):
`not metadata_filter or all(memory['metadata'].get(k) == v for k, v in
metadata_filter.items())`. -/
def metadataFilterMatch (metadataFilter : Option Doc) (m : WMemory) : Bool :=
  match metadataFilter with
  | none => true
  | some f => if f.isEmpty then true else f.all (metadataPairMatch m)

/-- The windsurf type filter (line 187): `not memory_type or
memory['type'] == memory_type`. -/
def typeFilterMatch (memoryType : Option String) (m : WMemory) : Bool :=
  match memoryType with
  | none => true
  | some t => if t == "" then true else m.mtype == t

/-- `WindsurfMemorySystem.list_memories` (lines 167-193) over an
already-loaded record set: filter conjunctively, then sort by timestamp
descending. -/
def wListMemories (memories : List WMemory) (memoryType : Option String)
    (metadataFilter : Option Doc) : List WMemory :=
  sortByDesc (fun m => m.timestamp)
    (memories.filter (fun m =>
      typeFilterMatch memoryType m && metadataFilterMatch metadataFilter m))

/-- One row of the `conversations` table of `ConversationDatabase`
(letta_server_manager lines 54-63). -/
structure ConvRow where
  id : String
  agent_id : String
  platform : String
  timestamp : String
  conversation_data : String
  metadata : Option String
deriving Repr, DecidableEq

/-- The WHERE clause `get_conversations` builds (lines 131-142): an
`agent_id`/`platform` equality conjunct is added only when the argument is
truthy (Python `if agent_id:` — `None` and `""` add no condition). -/
def rowMatches (agentId platform : Option String) (r : ConvRow) : Bool :=
  (match agentId with
   | none => true
   | some a => if a == "" then true else r.agent_id == a) &&
  (match platform with
   | none => true
   | some p => if p == "" then true else r.platform == p)

/-- `ConversationDatabase.get_conversations` (lines 110-160):
`SELECT * FROM conversations [WHERE ...] ORDER BY timestamp DESC LIMIT
{limit}` — the matching rows sorted by timestamp descending (text
comparison of the stored DATETIME values), truncated to `limit` rows. -/
def getConversations (rows : List ConvRow) (agentId platform : Option String)
    (limit : Nat) : List ConvRow :=
  (sortByDesc (fun r : ConvRow => r.timestamp)
    (rows.filter (rowMatches agentId platform))).take limit

/-- Default of the `limit` parameter of `get_conversations` (line 113). -/
def defaultConversationLimit : Nat := 100

deriving instance DecidableEq for Except

/-- Store used by the C3 witness. -/
def c3docA : Doc := [("id", Json.str "a"), ("timestamp", Json.str "2024-01-02T00:00:00")]

/-- Store used by the C3 witness. -/
def c3docB : Doc := [("id", Json.str "b"), ("timestamp", Json.str "2024-01-01T00:00:00")]

/-- Store used by the C3 witness (the older record listed first). -/
def c3store : List DirEntry := [⟨"m_b.json", some c3docB⟩, ⟨"m_a.json", some c3docA⟩]

/-- C3: for every store state and every filter, the sequence returned by
`list_memories` is sorted by timestamp in non-ascending order — for all
positions `i < j` in the result, `result[i].timestamp ≥ result[j].timestamp`
(ISO-8601 strings compared as strings; a record without a timestamp field
sorts as the empty string, see `tsOf`). -/
theorem listMemories_sorted_by_timestamp (tag topic : Option String)
    (store : List DirEntry) (res : List Doc)
    (h : listMemories tag topic store = Except.ok res) :
    ∀ i j : Fin res.length, i < j → strLe (tsOf (res.get j)) (tsOf (res.get i)) = true := by
  have hp : res.Pairwise (fun a b => strLe (tsOf b) (tsOf a) = true) := by
    cases hc : collectMemories tag topic store with
    | error m => simp [listMemories, hc] at h
    | ok ms =>
        simp [listMemories, hc] at h
        rw [← h]
        exact pairwise_sortByDesc tsOf ms
  exact fun i j hij => List.pairwise_iff_get.mp hp i j hij

/-- C3 witness: a concrete two-record store, listed with no filter. -/
theorem listMemories_sorted_by_timestamp_witness :
    strLe (tsOf (([c3docA, c3docB] : List Doc).get ⟨1, by decide⟩))
      (tsOf (([c3docA, c3docB] : List Doc).get ⟨0, by decide⟩)) = true :=
  listMemories_sorted_by_timestamp none none c3store [c3docA, c3docB] (by decide)
    ⟨0, by decide⟩ ⟨1, by decide⟩ (by decide)

/-- C10: for every database state and every combination of optional
`agent_id`/`platform` filters, `get_conversations` returns at most `limit`
rows (the default of the parameter is `defaultConversationLimit = 100`),
each a stored row matching the filters, sorted by timestamp descending;
every stored matching row left out has a timestamp no newer than any
returned row (the most recent are selected, the rest silently omitted). -/
theorem getConversations_spec (rows : List ConvRow) (agentId platform : Option String)
    (limit : Nat) :
    (getConversations rows agentId platform limit).length ≤ limit
    ∧ (∀ r ∈ getConversations rows agentId platform limit,
        r ∈ rows ∧ rowMatches agentId platform r = true)
    ∧ (getConversations rows agentId platform limit).Pairwise
        (fun a b => strLe b.timestamp a.timestamp = true)
    ∧ (∀ r ∈ getConversations rows agentId platform limit, ∀ s ∈ rows,
        rowMatches agentId platform s = true →
        s ∉ getConversations rows agentId platform limit →
        strLe s.timestamp r.timestamp = true) := by
  refine ⟨List.length_take_le limit _, ?_, ?_, ?_⟩
  · intro r hr
    have hrS : r ∈ sortByDesc (fun r : ConvRow => r.timestamp)
        (rows.filter (rowMatches agentId platform)) :=
      List.mem_of_mem_take hr
    exact List.mem_filter.mp ((mem_sortByDesc _ r _).mp hrS)
  · exact (pairwise_sortByDesc (fun r : ConvRow => r.timestamp) _).sublist (List.take_sublist _ _)
  · intro r hr s hs hmatch hsnot
    simp only [getConversations] at hr hsnot
    have hsS : s ∈ sortByDesc (fun r : ConvRow => r.timestamp)
        (rows.filter (rowMatches agentId platform)) :=
      (mem_sortByDesc _ s _).mpr (List.mem_filter.mpr ⟨hs, hmatch⟩)
    have hpw := pairwise_sortByDesc (fun r : ConvRow => r.timestamp)
      (rows.filter (rowMatches agentId platform))
    have hsplit := List.take_append_drop limit (sortByDesc (fun r : ConvRow => r.timestamp)
      (rows.filter (rowMatches agentId platform)))
    rw [← hsplit] at hpw hsS
    have hsD : s ∈ List.drop limit (sortByDesc (fun r : ConvRow => r.timestamp)
        (rows.filter (rowMatches agentId platform))) := by
      rcases List.mem_append.mp hsS with h | h
      · exact absurd h hsnot
      · exact h
    exact (List.pairwise_append.mp hpw).2.2 r hr s hsD

/-- C10 witness: two stored conversations, no filter, `limit = 1`. -/
theorem getConversations_spec_witness :
    (getConversations
      [⟨"1", "a1", "p1", "2024-01-01 10:00:00", "c1", none⟩,
       ⟨"2", "a2", "p2", "2024-01-02 10:00:00", "c2", none⟩] none none 1).length ≤ 1 :=
  (getConversations_spec
    [⟨"1", "a1", "p1", "2024-01-01 10:00:00", "c1", none⟩,
     ⟨"2", "a2", "p2", "2024-01-02 10:00:00", "c2", none⟩] none none 1).1

/-- Helper for C1: the listing loop of `list_memories` aborts whenever some
`.json` file in the directory is malformed (the first such file makes
`json.load` raise). -/
theorem collectMemories_error_of_malformed (tag topic : Option String) :
    ∀ store : List DirEntry,
      (∃ e ∈ store, strEndsWith e.name ".json" = true ∧ e.data = none) →
      ∃ m, collectMemories tag topic store = Except.error m
  | [], h => by simp at h
  | e :: es, h => by
      rcases h with ⟨e', he', hjson, hdata⟩
      rcases List.mem_cons.mp he' with rfl | hmem
      · exact ⟨ListError.parseFailure e'.name, by simp [collectMemories, hjson, hdata]⟩
      · cases hj : strEndsWith e.name ".json" with
        | false =>
            rcases collectMemories_error_of_malformed tag topic es ⟨e', hmem, hjson, hdata⟩
              with ⟨m, hm⟩
            exact ⟨m, by simp [collectMemories, hj, hm]⟩
        | true =>
            cases hd : e.data with
            | none => exact ⟨ListError.parseFailure e.name, by simp [collectMemories, hj, hd]⟩
            | some d =>
                rcases collectMemories_error_of_malformed tag topic es ⟨e', hmem, hjson, hdata⟩
                  with ⟨m, hm⟩
                exact ⟨m, by simp [collectMemories, hj, hd, hm]⟩

/-- Helper for C1: what the categorizer's loader returns — exactly the
parseable `.json` files, the malformed ones skipped. -/
theorem mem_loadMemories (d : Doc) :
    ∀ store : List DirEntry,
      d ∈ loadMemories store ↔
        ∃ e ∈ store, strEndsWith e.name ".json" = true ∧ e.data = some d
  | [] => by simp [loadMemories]
  | e :: es => by
      have ih := mem_loadMemories d es
      cases hj : strEndsWith e.name ".json" with
      | false =>
          simp only [loadMemories, hj, List.mem_cons]
          rw [if_neg (by simp)]
          rw [ih]
          constructor
          · rintro ⟨e', hm, hx⟩
            exact ⟨e', Or.inr hm, hx⟩
          · rintro ⟨e', hm | hm, hx, hy⟩
            · subst hm; rw [hj] at hx; cases hx
            · exact ⟨e', hm, hx, hy⟩
      | true =>
          cases hd : e.data with
          | none =>
              simp only [loadMemories, hj, hd, List.mem_cons, if_true]
              rw [ih]
              constructor
              · rintro ⟨e', hm, hx⟩
                exact ⟨e', Or.inr hm, hx⟩
              · rintro ⟨e', hm | hm, hx, hy⟩
                · subst hm; rw [hd] at hy; cases hy
                · exact ⟨e', hm, hx, hy⟩
          | some d2 =>
              simp only [loadMemories, hj, hd, List.mem_cons, if_true]
              rw [ih]
              constructor
              · rintro (hm | ⟨e', hm, hx⟩)
                · exact ⟨e, Or.inl rfl, hj, by rw [hd, hm]⟩
                · exact ⟨e', Or.inr hm, hx⟩
              · rintro ⟨e', hm | hm, hx, hy⟩
                · subst hm
                  rw [hd] at hy
                  injection hy with hy2
                  exact Or.inl hy2.symm
                · exact Or.inr ⟨e', hm, hx, hy⟩

/-- C1 (amended): a record file that is not valid JSON is NOT skipped by
`LettaMemoryManager.list_memories` — the `json.load` failure is logged and
re-raised, so the whole listing fails and no partial result is returned.
The fail-soft behaviour the claim describes exists only in the categorizer's
`_load_memories`, which returns exactly the parseable `.json` records and
skips malformed files with a printed warning. -/
theorem malformed_file_handling (store : List DirEntry) (tag topic : Option String) :
    ((∃ e ∈ store, strEndsWith e.name ".json" = true ∧ e.data = none) →
      ∃ m, listMemories tag topic store = Except.error m)
    ∧ (∀ d : Doc, d ∈ loadMemories store ↔
        ∃ e ∈ store, strEndsWith e.name ".json" = true ∧ e.data = some d) := by
  constructor
  · intro h
    rcases collectMemories_error_of_malformed tag topic store h with ⟨m, hm⟩
    exact ⟨m, by simp [listMemories, hm]⟩
  · intro d
    exact mem_loadMemories d store

/-- C1 counterexample: a store holding one parseable record file and one
malformed record file.  `list_memories` raises (the logged error is
re-raised to the caller) instead of returning the parseable record as a
partial result — refuting the claim that the failure is never surfaced. -/
theorem listMemories_malformed_cex :
    listMemories none none
      [⟨"good_a.json", some [("id", Json.str "a")]⟩, ⟨"bad_b.json", none⟩]
      = Except.error (ListError.parseFailure "bad_b.json") := by decide

/-- C1 witness: a store whose only `.json` file is malformed makes
`list_memories` fail. -/
theorem malformed_file_handling_witness :
    ∃ m, listMemories none none [⟨"bad.json", (none : Option Doc)⟩] = Except.error m :=
  (malformed_file_handling [⟨"bad.json", none⟩] none none).1
    ⟨⟨"bad.json", none⟩, by decide, by decide, rfl⟩

/-- Helper for C2: the filename `store_memory` writes contains the fresh id
as a substring. -/
theorem substrIn_storeFilename (topic : Option String) (memoryId : String) :
    substrIn memoryId (storeFilename topic memoryId) = true := by
  unfold substrIn storeFilename
  rw [decide_eq_true_iff]
  rw [String.data_append, String.data_append, String.data_append]
  exact List.infix_append _ _ _

/-- Helper for C2: retrieval from a store extended with a fresh file whose
name contains the id, when no pre-existing filename does. -/
theorem retrieveMemory_append_of_fresh (memoryId : String) (x : DirEntry) (d : Doc)
    (hx : substrIn memoryId x.name = true) (hd : x.data = some d) :
    ∀ store : List DirEntry, (∀ e ∈ store, substrIn memoryId e.name = false) →
      retrieveMemory memoryId (store ++ [x]) = Except.ok d
  | [], _ => by simp [retrieveMemory, hx, hd]
  | e :: es, h => by
      have he := h e (List.mem_cons_self e es)
      have ih := retrieveMemory_append_of_fresh memoryId x d hx hd es
        (fun e' he' => h e' (List.mem_cons_of_mem _ he'))
      simp only [List.cons_append, retrieveMemory, he]
      rw [if_neg (by simp)]
      exact ih

/-- C2: storing a memory and retrieving it under the returned id yields the
record that was created — same content, defaulted topic and tags, `id` field
equal to the returned id, and a populated non-empty timestamp — provided no
previously stored file's name contains the fresh id as a substring (fresh
`uuid4` ids satisfy this).  The timestamp parameter stands for
`datetime.now().isoformat()`, which is never empty. -/
theorem create_get_roundtrip (store : List DirEntry) (content : Json)
    (topic : Option String) (tags : Option (List String)) (memoryId timestamp : String)
    (hfresh : ∀ e ∈ store, substrIn memoryId e.name = false)
    (hts : timestamp ≠ "") :
    retrieveMemory (storeMemory store content topic tags memoryId timestamp).2
        (storeMemory store content topic tags memoryId timestamp).1
      = Except.ok (memoryEntry content topic tags memoryId timestamp)
    ∧ Doc.get (memoryEntry content topic tags memoryId timestamp) "id"
        = some (Json.str (storeMemory store content topic tags memoryId timestamp).2)
    ∧ Doc.get (memoryEntry content topic tags memoryId timestamp) "content" = some content
    ∧ Doc.get (memoryEntry content topic tags memoryId timestamp) "topic"
        = some (Json.str (pyOr topic "Untitled Memory"))
    ∧ Doc.get (memoryEntry content topic tags memoryId timestamp) "tags"
        = some (Json.arr ((tags.getD []).map Json.str))
    ∧ ∃ ts, Doc.get (memoryEntry content topic tags memoryId timestamp) "timestamp"
        = some (Json.str ts) ∧ ts ≠ "" := by
  refine ⟨?_, rfl, rfl, rfl, rfl, ⟨timestamp, rfl, hts⟩⟩
  exact retrieveMemory_append_of_fresh memoryId
    ⟨storeFilename topic memoryId, some (memoryEntry content topic tags memoryId timestamp)⟩
    (memoryEntry content topic tags memoryId timestamp)
    (substrIn_storeFilename topic memoryId) rfl store hfresh

/-- C2 witness: a concrete create/get round trip on an empty store. -/
theorem create_get_roundtrip_witness :
    retrieveMemory
        (storeMemory [] (Json.obj [("note", Json.str "hi")]) (some "My Topic!")
          (some ["a"]) "id123" "2024-01-01T00:00:00").2
        (storeMemory [] (Json.obj [("note", Json.str "hi")]) (some "My Topic!")
          (some ["a"]) "id123" "2024-01-01T00:00:00").1
      = Except.ok (memoryEntry (Json.obj [("note", Json.str "hi")]) (some "My Topic!")
          (some ["a"]) "id123" "2024-01-01T00:00:00")
    ∧ Doc.get (memoryEntry (Json.obj [("note", Json.str "hi")]) (some "My Topic!")
          (some ["a"]) "id123" "2024-01-01T00:00:00") "id"
        = some (Json.str (storeMemory [] (Json.obj [("note", Json.str "hi")])
            (some "My Topic!") (some ["a"]) "id123" "2024-01-01T00:00:00").2)
    ∧ Doc.get (memoryEntry (Json.obj [("note", Json.str "hi")]) (some "My Topic!")
          (some ["a"]) "id123" "2024-01-01T00:00:00") "content"
        = some (Json.obj [("note", Json.str "hi")])
    ∧ Doc.get (memoryEntry (Json.obj [("note", Json.str "hi")]) (some "My Topic!")
          (some ["a"]) "id123" "2024-01-01T00:00:00") "topic"
        = some (Json.str (pyOr (some "My Topic!") "Untitled Memory"))
    ∧ Doc.get (memoryEntry (Json.obj [("note", Json.str "hi")]) (some "My Topic!")
          (some ["a"]) "id123" "2024-01-01T00:00:00") "tags"
        = some (Json.arr (((some ["a"] : Option (List String)).getD []).map Json.str))
    ∧ ∃ ts, Doc.get (memoryEntry (Json.obj [("note", Json.str "hi")]) (some "My Topic!")
          (some ["a"]) "id123" "2024-01-01T00:00:00") "timestamp"
        = some (Json.str ts) ∧ ts ≠ "" :=
  create_get_roundtrip [] (Json.obj [("note", Json.str "hi")]) (some "My Topic!")
    (some ["a"]) "id123" "2024-01-01T00:00:00" (by simp) (by decide)

/-- C4 counterexample: the store holds exactly one record, with id `"abc"`;
`retrieve_memory "ab"` does not fail with NotFoundError — the substring
filename match returns the `"abc"` record, whose id differs from the
requested id. -/
theorem retrieve_substring_cex :
    retrieveMemory "ab" [⟨"untitled memory_abc.json", some [("id", Json.str "abc")]⟩]
      = Except.ok [("id", Json.str "abc")]
    ∧ Doc.get [("id", Json.str "abc")] "id" ≠ some (Json.str "ab") := by decide

/-- C4 (amended): `retrieve_memory` matches on the file NAME, not on the
stored id field: it fails with NotFoundError exactly when no stored file's
name contains the given id as a substring, and otherwise returns the parsed
content of the first file in listing order whose name contains the id —
which need not be a record whose id field equals the given id (and the
empty id matches the first file of any non-empty directory). -/
theorem retrieveMemory_filename_match (memoryId : String) :
    ∀ store : List DirEntry,
      (retrieveMemory memoryId store = Except.error RetrieveError.notFound
        ↔ ∀ e ∈ store, substrIn memoryId e.name = false)
      ∧ (∀ d : Doc, retrieveMemory memoryId store = Except.ok d →
          ∃ e, store.find? (fun en => substrIn memoryId en.name) = some e
            ∧ e.data = some d)
  | [] => by
      constructor
      · simp [retrieveMemory]
      · intro d h
        cases h
  | e :: es => by
      have ih := retrieveMemory_filename_match memoryId es
      cases hs : substrIn memoryId e.name with
      | true =>
          constructor
          · constructor
            · intro h
              cases hd : e.data with
              | some d => simp [retrieveMemory, hs, hd] at h
              | none => simp [retrieveMemory, hs, hd] at h
            · intro h
              have := h e (List.mem_cons_self e es)
              rw [hs] at this
              cases this
          · intro d h
            cases hd : e.data with
            | some d2 =>
                refine ⟨e, List.find?_cons_of_pos _ hs, ?_⟩
                rw [hd]
                simp only [retrieveMemory, hs, hd, if_true] at h
                injection h with h2
                rw [h2]
            | none =>
                simp [retrieveMemory, hs, hd] at h
      | false =>
          have hstep : retrieveMemory memoryId (e :: es) = retrieveMemory memoryId es := by
            simp only [retrieveMemory, hs]
            rw [if_neg (by simp)]
          constructor
          · rw [hstep, ih.1]
            constructor
            · intro h e' he'
              rcases List.mem_cons.mp he' with rfl | hm
              · exact hs
              · exact h e' hm
            · intro h e' he'
              exact h e' (List.mem_cons_of_mem _ he')
          · intro d h
            rw [hstep] at h
            rcases ih.2 d h with ⟨e2, hf, hd2⟩
            exact ⟨e2, by rw [List.find?_cons_of_neg _ (by simp [hs]), hf], hd2⟩

/-- C4 witness: an id matching no filename yields NotFoundError. -/
theorem retrieveMemory_filename_match_witness :
    retrieveMemory "zzz" [⟨"a_b.json", some []⟩] = Except.error RetrieveError.notFound :=
  (retrieveMemory_filename_match "zzz" [⟨"a_b.json", some []⟩]).1.mpr (by decide)

/-- Helper for C5: what the scan loop of `list_memories` collects — exactly
the parseable `.json` records passing both filters. -/
theorem mem_collectMemories (tag topic : Option String) :
    ∀ (store : List DirEntry) (ms : List Doc),
      collectMemories tag topic store = Except.ok ms →
      ∀ d : Doc, d ∈ ms ↔
        ∃ e ∈ store, strEndsWith e.name ".json" = true ∧ e.data = some d
          ∧ memoryFilter tag topic d = true
  | [], ms, h => by
      simp only [collectMemories] at h
      injection h with h2
      subst h2
      simp
  | e :: es, ms, h => by
      cases hj : strEndsWith e.name ".json" with
      | false =>
          have h2 : collectMemories tag topic es = Except.ok ms := by
            simp only [collectMemories, hj] at h
            rwa [if_neg (by simp)] at h
          intro d
          rw [mem_collectMemories tag topic es ms h2 d]
          constructor
          · rintro ⟨e', hm, hx⟩
            exact ⟨e', List.mem_cons_of_mem _ hm, hx⟩
          · rintro ⟨e', hm, hx, hy, hz⟩
            rcases List.mem_cons.mp hm with rfl | hm2
            · rw [hj] at hx; cases hx
            · exact ⟨e', hm2, hx, hy, hz⟩
      | true =>
          cases hd : e.data with
          | none => simp [collectMemories, hj, hd] at h
          | some d0 =>
              cases hrest : collectMemories tag topic es with
              | error m => simp [collectMemories, hj, hd, hrest] at h
              | ok rest =>
                  have hms : ms = if memoryFilter tag topic d0 then d0 :: rest else rest := by
                    simp only [collectMemories, hj, hd, hrest, if_true] at h
                    injection h with h2
                    exact h2.symm
                  intro d
                  have ihd := mem_collectMemories tag topic es rest hrest d
                  subst hms
                  by_cases hf : memoryFilter tag topic d0 = true
                  · rw [if_pos hf]
                    constructor
                    · intro hdm
                      rcases List.mem_cons.mp hdm with rfl | hm
                      · exact ⟨e, List.mem_cons_self e es, hj, hd, hf⟩
                      · rcases ihd.mp hm with ⟨e', he', hx⟩
                        exact ⟨e', List.mem_cons_of_mem _ he', hx⟩
                    · rintro ⟨e', hm, hx, hy, hz⟩
                      rcases List.mem_cons.mp hm with rfl | hm2
                      · rw [hd] at hy
                        injection hy with hy2
                        subst hy2
                        exact List.mem_cons_self d0 rest
                      · exact List.mem_cons_of_mem _ (ihd.mpr ⟨e', hm2, hx, hy, hz⟩)
                  · rw [if_neg hf]
                    rw [ihd]
                    constructor
                    · rintro ⟨e', hm, hx⟩
                      exact ⟨e', List.mem_cons_of_mem _ hm, hx⟩
                    · rintro ⟨e', hm, hx, hy, hz⟩
                      rcases List.mem_cons.mp hm with rfl | hm2
                      · rw [hd] at hy
                        injection hy with hy2
                        subst hy2
                        exact absurd hz hf
                      · exact ⟨e', hm2, hx, hy, hz⟩

/-- C5 counterexample: filtering by the EMPTY tag string returns a record
whose tags sequence does not contain it — `not tag` is true for `""`, so
the tag filter is disabled instead of selecting records containing `""`. -/
theorem empty_tag_filter_cex :
    listMemories (some "") none
      [⟨"m_x.json", some [("tags", Json.arr []), ("timestamp", Json.str "t1")]⟩]
      = Except.ok [[("tags", Json.arr []), ("timestamp", Json.str "t1")]]
    ∧ pyInJson "" (Json.arr []) = false := by decide

/-- C5 (amended): for every NON-empty tag string `t`, `list_memories` with
tag filter `t` returns exactly the stored parseable `.json` records whose
tags array contains `t` (stated for stores whose records carry an array
under `tags`, as every record this program writes does).  For the empty
string the filter is disabled by Python falsiness and every record is
returned. -/
theorem listMemories_tag_filter (t : String) (store : List DirEntry) (res : List Doc)
    (ht : t ≠ "")
    (hwf : ∀ e ∈ store, ∀ d : Doc, e.data = some d →
      ∃ xs : List Json, Doc.getD d "tags" (Json.arr []) = Json.arr xs)
    (h : listMemories (some t) none store = Except.ok res) :
    ∀ d : Doc, d ∈ res ↔
      ((∃ e ∈ store, strEndsWith e.name ".json" = true ∧ e.data = some d)
        ∧ ∃ xs : List Json, Doc.getD d "tags" (Json.arr []) = Json.arr xs
            ∧ Json.str t ∈ xs) := by
  have hms : ∃ ms, collectMemories (some t) none store = Except.ok ms
      ∧ res = sortByDesc tsOf ms := by
    cases hc : collectMemories (some t) none store with
    | error m => simp [listMemories, hc] at h
    | ok ms =>
        refine ⟨ms, rfl, ?_⟩
        simp only [listMemories, hc] at h
        injection h with h2
        exact h2.symm
  rcases hms with ⟨ms, hc, hres⟩
  intro d
  rw [hres, mem_sortByDesc, mem_collectMemories (some t) none store ms hc d]
  constructor
  · rintro ⟨e', hm, hx, hy, hz⟩
    refine ⟨⟨e', hm, hx, hy⟩, ?_⟩
    rcases hwf e' hm d hy with ⟨xs, hxs⟩
    refine ⟨xs, hxs, ?_⟩
    have hpy : pyInJson t (Doc.getD d "tags" (Json.arr [])) = true := by
      simp only [memoryFilter, topicMatch, Bool.and_true, tagMatch] at hz
      rwa [if_neg (by simp [ht])] at hz
    rw [hxs] at hpy
    simpa [pyInJson, List.contains, List.elem_iff] using hpy
  · rintro ⟨⟨e', hm, hx, hy⟩, xs, hxs, hmem⟩
    refine ⟨e', hm, hx, hy, ?_⟩
    simp only [memoryFilter, topicMatch, Bool.and_true, tagMatch]
    rw [if_neg (by simp [ht]), hxs]
    simpa [pyInJson, List.contains, List.elem_iff] using hmem

/-- Record used by the C5 witness (the spec's concrete scenario). -/
def c5doc1 : Doc :=
  [("id", Json.str "1"), ("timestamp", Json.str "2024-01-01T00:00:00"),
   ("tags", Json.arr [Json.str "a", Json.str "b"])]

/-- Record used by the C5 witness. -/
def c5doc2 : Doc :=
  [("id", Json.str "2"), ("timestamp", Json.str "2024-01-02T00:00:00"),
   ("tags", Json.arr [Json.str "b"])]

/-- Record used by the C5 witness. -/
def c5doc3 : Doc :=
  [("id", Json.str "3"), ("timestamp", Json.str "2024-01-03T00:00:00"),
   ("tags", Json.arr [Json.str "c"])]

/-- Store used by the C5 witness. -/
def c5store : List DirEntry :=
  [⟨"m_1.json", some c5doc1⟩, ⟨"m_2.json", some c5doc2⟩, ⟨"m_3.json", some c5doc3⟩]

/-- C5 witness: tags `["a","b"]`, `["b"]`, `["c"]`; filter `"b"` returns
exactly the first two, newest first. -/
theorem listMemories_tag_filter_witness :
    c5doc1 ∈ ([c5doc2, c5doc1] : List Doc) ↔
      ((∃ e ∈ c5store, strEndsWith e.name ".json" = true ∧ e.data = some c5doc1)
        ∧ ∃ xs : List Json, Doc.getD c5doc1 "tags" (Json.arr []) = Json.arr xs
            ∧ Json.str "b" ∈ xs) :=
  listMemories_tag_filter "b" c5store [c5doc2, c5doc1] (by decide)
    (by
      intro e he d hd
      simp only [c5store, List.mem_cons, List.not_mem_nil, or_false] at he
      rcases he with rfl | rfl | rfl
      · have h2 : c5doc1 = d := Option.some.inj hd
        subst h2; exact ⟨_, rfl⟩
      · have h2 : c5doc2 = d := Option.some.inj hd
        subst h2; exact ⟨_, rfl⟩
      · have h2 : c5doc3 = d := Option.some.inj hd
        subst h2; exact ⟨_, rfl⟩)
    (by decide) c5doc1

/-- C6 counterexample: a record whose metadata is MISSING the supplied key
matches the filter when the supplied value is null — `dict.get` returns
`None` for a missing key, and `None == None` holds. -/
theorem metadata_null_filter_cex :
    metadataFilterMatch (some [("k", Json.null)])
      ⟨"m1", "code_context", "2024-01-01T00:00:00", Json.null, []⟩ = true
    ∧ Doc.get ([] : Doc) "k" = none := by decide

/-- Helper for C6: one conjunct of the metadata filter, characterized. -/
theorem metadataPairMatch_iff (m : WMemory) (kv : String × Json) :
    metadataPairMatch m kv = true ↔
      Doc.get m.metadata kv.1 = some kv.2
        ∨ (Doc.get m.metadata kv.1 = none ∧ kv.2 = Json.null) := by
  unfold metadataPairMatch pyDictGet Doc.getD
  cases hg : Doc.get m.metadata kv.1 with
  | some v => simp [beq_iff_eq]
  | none =>
      simp only [beq_iff_eq]
      constructor
      · intro h2
        exact Or.inr ⟨by simp, h2.symm⟩
      · rintro (h2 | ⟨_, h2⟩)
        · cases h2
        · exact h2.symm

/-- C6 (amended): a record matches the metadata-equality filter iff, for
every supplied key/value pair, the record's metadata maps the key to an
equal value, OR the key is missing and the supplied value is null.  A
record missing one of the supplied keys therefore DOES match when that
pair's value is null — `dict.get` conflates a missing key with a stored
null. -/
theorem metadataFilterMatch_iff (f : Doc) (m : WMemory) :
    metadataFilterMatch (some f) m = true ↔
      ∀ kv ∈ f, Doc.get m.metadata kv.1 = some kv.2
        ∨ (Doc.get m.metadata kv.1 = none ∧ kv.2 = Json.null) := by
  have hdef : metadataFilterMatch (some f) m
      = if f.isEmpty = true then true else f.all (metadataPairMatch m) := rfl
  rw [hdef]
  by_cases he : f.isEmpty = true
  · rw [if_pos he]
    have h2 : f = [] := List.isEmpty_iff.mp he
    subst h2
    simp
  · rw [if_neg he, List.all_eq_true]
    constructor
    · intro h kv hkv
      exact (metadataPairMatch_iff m kv).mp (h kv hkv)
    · intro h kv hkv
      exact (metadataPairMatch_iff m kv).mpr (h kv hkv)

/-- C6 witness: a stored pair matching the supplied pair. -/
theorem metadataFilterMatch_iff_witness :
    metadataFilterMatch (some [("lang", Json.str "py")])
      ⟨"m2", "code_context", "t", Json.null, [("lang", Json.str "py")]⟩ = true :=
  (metadataFilterMatch_iff [("lang", Json.str "py")]
      ⟨"m2", "code_context", "t", Json.null, [("lang", Json.str "py")]⟩).mpr
    (by
      intro kv hkv
      rw [List.mem_singleton] at hkv
      subst hkv
      left
      rfl)

/-- Helper for C7: one `bump` adds exactly one to the total count. -/
theorem sumCounts_bump : ∀ (c : List (Json × Nat)) (k : Json),
    sumCounts (bump c k) = sumCounts c + 1
  | [], k => by simp [bump, sumCounts]
  | (k0, n) :: rest, k => by
      by_cases h : (k0 == k) = true
      · simp only [bump, if_pos h, sumCounts, List.map_cons, List.sum_cons]
        omega
      · simp only [bump, if_neg h, sumCounts, List.map_cons, List.sum_cons]
        have ih := sumCounts_bump rest k
        simp only [sumCounts] at ih
        omega

/-- Helper for C7: a fold of `bump`s over extracted values adds the number
of processed memories to the total count. -/
theorem sumCounts_foldl_bump (f : Doc → Json) :
    ∀ (ms : List Doc) (acc : List (Json × Nat)),
      sumCounts (ms.foldl (fun a m => bump a (f m)) acc) = sumCounts acc + ms.length
  | [], acc => by simp
  | m :: ms, acc => by
      simp only [List.foldl_cons, List.length_cons]
      rw [sumCounts_foldl_bump f ms (bump acc (f m)), sumCounts_bump]
      omega

/-- Helper for C7: same for the flattened tag list. -/
theorem sumCounts_foldl_bump_list :
    ∀ (l : List Json) (acc : List (Json × Nat)),
      sumCounts (l.foldl bump acc) = sumCounts acc + l.length
  | [], acc => by simp
  | x :: l, acc => by
      simp only [List.foldl_cons, List.length_cons]
      rw [sumCounts_foldl_bump_list l (bump acc x), sumCounts_bump]
      omega

/-- C7 counterexample: one loaded record carrying two tags — the tag
dimension's counts sum to 2, not to the record count 1 (a record with `n`
tags contributes `n`, an untagged record contributes 0). -/
theorem tag_counts_sum_cex :
    sumCounts (analyzeTags [[("tags", Json.arr [Json.str "a", Json.str "b"])]]) = 2
    ∧ ([[("tags", Json.arr [Json.str "a", Json.str "b"])]] : List Doc).length = 1 := by
  decide

/-- C7 (amended): for the entry-type, topic and domain dimensions the
frequency counts sum to the number of loaded records; for the tag dimension
they sum to the length of the flattened tag list (the total number of tag
occurrences across all records), not to the record count. -/
theorem categorization_counts_sum (memories : List Doc) :
    sumCounts (analyzeEntryTypes memories) = memories.length
    ∧ sumCounts (analyzeTopics memories) = memories.length
    ∧ sumCounts (analyzeDomains memories) = memories.length
    ∧ sumCounts (analyzeTags memories) = (allTags memories).length := by
  refine ⟨?_, ?_, ?_, ?_⟩
  · simpa [analyzeEntryTypes, tally, sumCounts] using
      sumCounts_foldl_bump entryTypeOf memories []
  · simpa [analyzeTopics, tally, sumCounts] using
      sumCounts_foldl_bump topicKeyOf memories []
  · simpa [analyzeDomains, tally, sumCounts] using
      sumCounts_foldl_bump domainOf memories []
  · simpa [analyzeTags, sumCounts] using
      sumCounts_foldl_bump_list (allTags memories) []

/-- C8 counterexample: the document `store_memory` writes has NO `metadata`
key — its keys are exactly id, entry_type, topic, timestamp, content,
tags. -/
theorem stored_doc_no_metadata_cex :
    Doc.get (memoryEntry (Json.obj []) none none "id1" "t1") "metadata" = none
    ∧ (memoryEntry (Json.obj []) none none "id1" "t1").map Prod.fst
      = ["id", "entry_type", "topic", "timestamp", "content", "tags"] := by decide

/-- C8 (amended): every document written by `store_memory` has exactly the
keys id, entry_type, topic, timestamp, content and tags, with the
documented value in each; a `metadata` key is NOT present. -/
theorem stored_doc_shape (content : Json) (topic : Option String)
    (tags : Option (List String)) (memoryId timestamp : String) :
    (memoryEntry content topic tags memoryId timestamp).map Prod.fst
      = ["id", "entry_type", "topic", "timestamp", "content", "tags"]
    ∧ Doc.get (memoryEntry content topic tags memoryId timestamp) "id"
        = some (Json.str memoryId)
    ∧ Doc.get (memoryEntry content topic tags memoryId timestamp) "entry_type"
        = some (Json.str "user_memory")
    ∧ Doc.get (memoryEntry content topic tags memoryId timestamp) "topic"
        = some (Json.str (pyOr topic "Untitled Memory"))
    ∧ Doc.get (memoryEntry content topic tags memoryId timestamp) "timestamp"
        = some (Json.str timestamp)
    ∧ Doc.get (memoryEntry content topic tags memoryId timestamp) "content"
        = some content
    ∧ Doc.get (memoryEntry content topic tags memoryId timestamp) "tags"
        = some (Json.arr ((tags.getD []).map Json.str))
    ∧ Doc.get (memoryEntry content topic tags memoryId timestamp) "metadata" = none :=
  ⟨rfl, rfl, rfl, rfl, rfl, rfl, rfl, rfl⟩

/-- The sanitization step as the specification words it: keep every
alphanumeric character, space and underscore, replace every other character
with an underscore, and lower-case the result. -/
def sanitizeSpec (t : String) : String :=
  lowerStr (String.mk (t.data.map fun c =>
    if c.isAlphanum || c == ' ' || c == '_' then c else '_'))

/-- C9 counterexample: for the EMPTY topic string the claimed filename
`sanitize(topic) + "_" + id + ".json"` does not hold — `topic or 'Untitled
Memory'` replaces the empty topic by the default before sanitization. -/
theorem empty_topic_filename_cex :
    storeFilename (some "") "abc123" = "untitled memory_abc123.json"
    ∧ sanitizeSpec "" ++ "_" ++ "abc123" ++ ".json" = "_abc123.json"
    ∧ ("untitled memory_abc123.json" : String) ≠ "_abc123.json" := by decide

/-- C9 (amended): for every NON-empty topic string, the filename written by
`store_memory` is `sanitize(topic) + "_" + id + ".json"` with `sanitize` as
the spec describes it (`sanitizeSpec`); an empty or absent topic is first
defaulted to "Untitled Memory". -/
theorem storeFilename_spec (topic memoryId : String) (h : topic ≠ "") :
    storeFilename (some topic) memoryId
      = sanitizeSpec topic ++ "_" ++ memoryId ++ ".json" := by
  have hp : pyOr (some topic) "Untitled Memory" = topic := by
    show (if (topic == "") = true then "Untitled Memory" else topic) = topic
    rw [if_neg (by simp [h])]
  show sanitizeTopic (pyOr (some topic) "Untitled Memory") ++ "_" ++ memoryId ++ ".json"
      = sanitizeSpec topic ++ "_" ++ memoryId ++ ".json"
  rw [hp]
  rfl

/-- C9 witness: a topic with an upper-case letter and a punctuation
character. -/
theorem storeFilename_spec_witness :
    storeFilename (some "My Topic!") "id9"
      = sanitizeSpec "My Topic!" ++ "_" ++ "id9" ++ ".json" :=
  storeFilename_spec "My Topic!" "id9" (by decide)
